import Mathlib

/-!
Shallow embedding of the Q-learning-family learners of the xuance repository
(`src/xuance/torch/learners/qlearning_family/{ddqn,perdqn,drqn}_learner.py`).

Tensors over the action axis are modelled as `List ℚ`; batches are lists of
per-element data.  The learners' `update` methods are embedded as pure
functions; the policy collaborator is an abstract structure of evaluation
functions, matching the call contract
`forward(obs) -> (aux, argmax_action, action_values)` and
`target(obs) -> (aux, argmax_action, action_values)`.
-/

namespace Xuance

/-- `torch.nn.functional.one_hot i n`: indicator vector of length `n` with a
one at position `i` (as rationals, mirroring the float cast before the
elementwise product). -/
def one_hot (i n : Nat) : List ℚ :=
  (List.range n).map (fun j => if j = i then (1 : ℚ) else 0)

/-- `(q * one_hot(a, q.shape[-1])).sum(dim=-1)`: elementwise product of an
action-value vector with a one-hot indicator, summed over the action axis
(ddqn_learner.py lines 37-38 and 40, perdqn_learner.py line 64,
drqn_learner.py lines 40-41 and 44). -/
def maskSum (q : List ℚ) (a : Nat) : ℚ :=
  (List.zipWith (fun x y => x * y) q (one_hot a q.length)).sum

/-- `targetQ.max(dim=-1).values` on one batch element: the maximum entry of
the action-value vector (perdqn_learner.py line 62). -/
def tmax : List ℚ → ℚ
  | [] => 0
  | x :: xs => xs.foldl max x

/-- `rew_batch + gamma * (1 - ter_batch) * targetQ`, elementwise over the
batch (ddqn_learner.py line 39, perdqn_learner.py line 63,
drqn_learner.py line 43). -/
def tdTargets (γ : ℚ) : List ℚ → List ℚ → List ℚ → List ℚ
  | r :: rs, t :: ts, b :: bs => (r + γ * (1 - t) * b) :: tdTargets γ rs ts bs
  | _, _, _ => []

section MaskSumLemmas

theorem zipWith_mul_zero (xs ys : List ℚ) (h : ∀ y ∈ ys, y = 0) :
    (List.zipWith (fun x y => x * y) xs ys).sum = 0 := by
  induction xs generalizing ys with
  | nil => simp
  | cons x xs ih =>
    cases ys with
    | nil => simp
    | cons y ys =>
      have hy : y = 0 := h y (List.mem_cons_self y ys)
      have hys : ∀ z ∈ ys, z = 0 := fun z hz => h z (List.mem_cons_of_mem y hz)
      simp [hy, ih ys hys]

theorem maskSum_cons (x : ℚ) (xs : List ℚ) (a : Nat) :
    maskSum (x :: xs) a =
      x * (if 0 = a then (1 : ℚ) else 0) +
        (List.zipWith (fun x y => x * y) xs
          ((List.range xs.length).map
            (fun j => if j + 1 = a then (1 : ℚ) else 0))).sum := by
  have hcomp : ((fun j => if j = a then (1 : ℚ) else 0) ∘ Nat.succ) =
      (fun j => if j + 1 = a then (1 : ℚ) else 0) := by
    funext j
    simp [Function.comp, Nat.succ_eq_add_one]
  simp [maskSum, one_hot, List.range_succ_eq_map, List.map_map, hcomp]

/-- One-hot mask-and-sum selects the entry at the given index when the index
is in range. -/
theorem maskSum_getD (q : List ℚ) (a : Nat) (h : a < q.length) :
    maskSum q a = q.getD a 0 := by
  induction q generalizing a with
  | nil => simp at h
  | cons x xs ih =>
    rw [maskSum_cons]
    cases a with
    | zero =>
      have hz : (List.zipWith (fun x y => x * y) xs
          (List.replicate xs.length (0 : ℚ))).sum = 0 :=
        zipWith_mul_zero _ _ (fun y hy => List.eq_of_mem_replicate hy)
      simp [hz]
    | succ a =>
      have ha : a < xs.length := Nat.lt_of_succ_lt_succ h
      have hrw : ((List.range xs.length).map
            (fun j => if j + 1 = a + 1 then (1 : ℚ) else 0)) =
          one_hot a xs.length := by
        simp [one_hot]
      rw [hrw]
      have := ih a ha
      simp [maskSum, one_hot] at this
      simp [this, maskSum, one_hot]

end MaskSumLemmas

section TmaxLemmas

theorem foldl_max_init_le (xs : List ℚ) (x : ℚ) : x ≤ xs.foldl max x := by
  induction xs generalizing x with
  | nil => simp
  | cons y ys ih =>
    calc x ≤ max x y := le_max_left x y
    _ ≤ ys.foldl max (max x y) := ih (max x y)

theorem foldl_max_le_of_mem (xs : List ℚ) (x y : ℚ) (h : y ∈ xs) :
    y ≤ xs.foldl max x := by
  induction xs generalizing x with
  | nil => simp at h
  | cons z zs ih =>
    rcases List.mem_cons.mp h with h1 | h2
    · subst h1
      calc y ≤ max x y := le_max_right x y
      _ ≤ zs.foldl max (max x y) := foldl_max_init_le zs (max x y)
    · exact ih (max x z) h2

theorem foldl_max_mem (xs : List ℚ) (x : ℚ) :
    xs.foldl max x = x ∨ xs.foldl max x ∈ xs := by
  induction xs generalizing x with
  | nil => simp
  | cons y ys ih =>
    rcases ih (max x y) with h | h
    · rcases max_choice x y with hc | hc
      · left
        show ys.foldl max (max x y) = x
        rw [h, hc]
      · right
        show ys.foldl max (max x y) ∈ y :: ys
        rw [h, hc]
        exact List.mem_cons_self y ys
    · right
      show ys.foldl max (max x y) ∈ y :: ys
      exact List.mem_cons_of_mem y h

theorem tmax_mem (q : List ℚ) (h : q ≠ []) : tmax q ∈ q := by
  cases q with
  | nil => exact absurd rfl h
  | cons x xs =>
    rcases foldl_max_mem xs x with h1 | h1
    · simp [tmax, h1]
    · simp [tmax]
      right
      exact h1

theorem le_tmax_of_mem (q : List ℚ) (y : ℚ) (h : y ∈ q) : y ≤ tmax q := by
  cases q with
  | nil => simp at h
  | cons x xs =>
    rcases List.mem_cons.mp h with h1 | h1
    · subst h1; exact foldl_max_init_le xs y
    · exact foldl_max_le_of_mem xs x y h1

end TmaxLemmas

section TdTargetLemmas

theorem tdTargets_getD (γ : ℚ) (rs ts bs : List ℚ) (i : Nat)
    (ht : ts.length = rs.length) (hb : bs.length = rs.length)
    (hi : i < rs.length) :
    (tdTargets γ rs ts bs).getD i 0 =
      rs.getD i 0 + γ * (1 - ts.getD i 0) * bs.getD i 0 := by
  induction rs generalizing ts bs i with
  | nil => simp at hi
  | cons r rs ih =>
    cases ts with
    | nil => simp at ht
    | cons t ts =>
      cases bs with
      | nil => simp at hb
      | cons b bs =>
        cases i with
        | zero => simp [tdTargets]
        | succ i =>
          have ht' : ts.length = rs.length := by simpa using ht
          have hb' : bs.length = rs.length := by simpa using hb
          have hi' : i < rs.length := Nat.lt_of_succ_lt_succ hi
          have hstep : tdTargets γ (r :: rs) (t :: ts) (b :: bs) =
              (r + γ * (1 - t) * b) :: tdTargets γ rs ts bs := rfl
          rw [hstep, List.getD_cons_succ, List.getD_cons_succ,
            List.getD_cons_succ, List.getD_cons_succ]
          exact ih ts bs i ht' hb' hi'

theorem tdTargets_length (γ : ℚ) (rs ts bs : List ℚ)
    (ht : ts.length = rs.length) (hb : bs.length = rs.length) :
    (tdTargets γ rs ts bs).length = rs.length := by
  induction rs generalizing ts bs with
  | nil =>
    cases ts <;> cases bs <;> simp [tdTargets]
  | cons r rs ih =>
    cases ts with
    | nil => simp at ht
    | cons t ts =>
      cases bs with
      | nil => simp at hb
      | cons b bs =>
        have ht' : ts.length = rs.length := by simpa using ht
        have hb' : bs.length = rs.length := by simpa using hb
        simp [tdTargets, ih ts bs ht' hb']

end TdTargetLemmas

/-- Abstract feed-forward policy collaborator: `policy(obs)` returns
`(aux, argmax_action, action_values)` from the online parameters and
`policy.target(obs)` returns `(aux, argmax_action, action_values)` from the
frozen target parameters.  `forwardQ` is the online action-value output,
`targetA` and `targetQ` are the target network's arg-max action and
action-value output. -/
structure QPolicy (Obs : Type) where
  forwardQ : Obs → List ℚ
  targetA : Obs → Nat
  targetQ : Obs → List ℚ

/-- Double-DQN bootstrapped value for one batch element: one-hot of the
target network's arg-max action, multiplied with the target network's
action values and summed over the action axis
(ddqn_learner.py lines 35, 37-38). -/
def ddqn_bootstrap {Obs : Type} (p : QPolicy Obs) (o : Obs) : ℚ :=
  maskSum (p.targetQ o) (p.targetA o)

/-- PER-DQN bootstrapped value for one batch element: plain maximum of the
target network's action values (perdqn_learner.py lines 61-62). -/
def perdqn_bootstrap {Obs : Type} (p : QPolicy Obs) (o : Obs) : ℚ :=
  tmax (p.targetQ o)

/-- The batch of TD targets computed by `DDQN_Learner.update`
(ddqn_learner.py lines 35-39). -/
def ddqn_targetQ {Obs : Type} (γ : ℚ) (p : QPolicy Obs) (next : List Obs)
    (rews ters : List ℚ) : List ℚ :=
  tdTargets γ rews ters (next.map (ddqn_bootstrap p))

/-- The batch of TD targets computed by `PerDQN_Learner.update`
(perdqn_learner.py lines 61-63). -/
def perdqn_targetQ {Obs : Type} (γ : ℚ) (p : QPolicy Obs) (next : List Obs)
    (rews ters : List ℚ) : List ℚ :=
  tdTargets γ rews ters (next.map (perdqn_bootstrap p))

section Sharding

/-- Lower bound of the index range taken by worker `r`:
`rank * batch_size_local` with `batch_size_local = batch_size // world_size`
(perdqn_learner.py lines 34-38). -/
def shard_lo (bs w r : Nat) : Nat := r * (bs / w)

/-- Upper bound (exclusive) of the index range taken by worker `r`:
`(rank + 1) * batch_size_local` for every rank but the last, `batch_size`
for the last rank (perdqn_learner.py lines 35-38). -/
def shard_hi (bs w r : Nat) : Nat :=
  if r < w - 1 then (r + 1) * (bs / w) else bs

/-- `indices = range(lo, hi)` selected by worker `r`
(perdqn_learner.py lines 36 and 38). -/
def shard_indices (bs w r : Nat) : List Nat :=
  List.range' (shard_lo bs w r) (shard_hi bs w r - shard_lo bs w r)

theorem shard_lo_le_hi (bs w r : Nat) (_hw : 1 ≤ w) (hr : r < w) :
    shard_lo bs w r ≤ shard_hi bs w r := by
  unfold shard_lo shard_hi
  by_cases h : r < w - 1
  · simp only [h, if_true]
    exact Nat.mul_le_mul_right _ (Nat.le_succ r)
  · simp only [h, if_false]
    calc r * (bs / w) ≤ w * (bs / w) :=
          Nat.mul_le_mul_right _ (Nat.le_of_lt hr)
    _ = bs / w * w := Nat.mul_comm w (bs / w)
    _ ≤ bs := Nat.div_mul_le_self bs w

theorem mem_shard_indices (bs w r i : Nat) (hw : 1 ≤ w) (hr : r < w) :
    i ∈ shard_indices bs w r ↔
      shard_lo bs w r ≤ i ∧ i < shard_hi bs w r := by
  unfold shard_indices
  rw [List.mem_range'_1]
  constructor
  · rintro ⟨h1, h2⟩
    refine ⟨h1, ?_⟩
    have := shard_lo_le_hi bs w r hw hr
    omega
  · rintro ⟨h1, h2⟩
    have := shard_lo_le_hi bs w r hw hr
    omega

theorem lt_div_succ_mul (i b : Nat) (hb : 0 < b) : i < (i / b + 1) * b := by
  have h2 : i % b < b := Nat.mod_lt i hb
  calc i = b * (i / b) + i % b := (Nat.div_add_mod i b).symm
  _ < b * (i / b) + b := Nat.add_lt_add_left h2 _
  _ = b * (i / b + 1) := by ring
  _ = (i / b + 1) * b := Nat.mul_comm _ _

/-- Every index selected by a worker is inside the original batch range. -/
theorem shard_mem_lt (bs w r i : Nat) (hw : 1 ≤ w) (hr : r < w)
    (h : i ∈ shard_indices bs w r) : i < bs := by
  have hm := (mem_shard_indices bs w r i hw hr).mp h
  have hhi : shard_hi bs w r ≤ bs := by
    unfold shard_hi
    by_cases hc : r < w - 1
    · simp only [hc, if_true]
      have h1 : r + 1 ≤ w := hr
      calc (r + 1) * (bs / w) ≤ w * (bs / w) := Nat.mul_le_mul_right _ h1
      _ = bs / w * w := Nat.mul_comm w (bs / w)
      _ ≤ bs := Nat.div_mul_le_self bs w
    · simp only [hc, if_false]
      exact Nat.le_refl bs
  exact Nat.lt_of_lt_of_le hm.2 hhi

/-- Every index of the original batch range is selected by some worker. -/
theorem shard_cover (bs w i : Nat) (hw : 1 ≤ w) (hi : i < bs) :
    ∃ r, r < w ∧ i ∈ shard_indices bs w r := by
  by_cases hb : bs / w = 0
  · refine ⟨w - 1, by omega, ?_⟩
    rw [mem_shard_indices bs w (w - 1) i hw (by omega)]
    constructor
    · unfold shard_lo
      simp [hb]
    · unfold shard_hi
      simp [hi]
  · have hb' : 0 < bs / w := Nat.pos_of_ne_zero hb
    by_cases hq : i / (bs / w) < w - 1
    · refine ⟨i / (bs / w), by omega, ?_⟩
      rw [mem_shard_indices bs w _ i hw (by omega)]
      constructor
      · unfold shard_lo
        exact Nat.div_mul_le_self i (bs / w)
      · unfold shard_hi
        simp only [hq, if_true]
        exact lt_div_succ_mul i (bs / w) hb'
    · refine ⟨w - 1, by omega, ?_⟩
      rw [mem_shard_indices bs w (w - 1) i hw (by omega)]
      constructor
      · unfold shard_lo
        calc (w - 1) * (bs / w) ≤ i / (bs / w) * (bs / w) :=
              Nat.mul_le_mul_right _ (by omega)
        _ ≤ i := Nat.div_mul_le_self i (bs / w)
      · unfold shard_hi
        simp [hi]

/-- Two distinct workers select disjoint index sets. -/
theorem shard_disjoint (bs w r1 r2 i : Nat) (hw : 1 ≤ w)
    (h1 : r1 < w) (h2 : r2 < w) (hne : r1 ≠ r2) :
    ¬(i ∈ shard_indices bs w r1 ∧ i ∈ shard_indices bs w r2) := by
  have key : ∀ s1 s2, s1 < w → s2 < w → s1 < s2 →
      ¬(i ∈ shard_indices bs w s1 ∧ i ∈ shard_indices bs w s2) := by
    intro s1 s2 hs1 hs2 hlt ⟨m1, m2⟩
    have hm1 := (mem_shard_indices bs w s1 i hw hs1).mp m1
    have hm2 := (mem_shard_indices bs w s2 i hw hs2).mp m2
    have hs1' : s1 < w - 1 := by omega
    have hbound : shard_hi bs w s1 ≤ shard_lo bs w s2 := by
      unfold shard_hi shard_lo
      simp only [hs1', if_true]
      exact Nat.mul_le_mul_right _ (by omega)
    omega
  rcases Nat.lt_or_ge r1 r2 with hlt | hge
  · exact key r1 r2 h1 h2 hlt
  · have hlt : r2 < r1 := by omega
    intro ⟨m1, m2⟩
    exact key r2 r1 h2 h1 hlt ⟨m2, m1⟩

end Sharding

section PerDQN

/-- The input mapping received by `PerDQN_Learner.update`: keys `obs`,
`actions`, `obs_next`, `rewards`, `terminals`, `batch_size`, and the
optional `weights` and `step_choices` entries. -/
structure PerSamples (Obs : Type) where
  obs : List Obs
  actions : List Nat
  obs_next : List Obs
  rewards : List ℚ
  terminals : List ℚ
  batch_size : Nat
  weights : Option (List ℚ)
  step_choices : Option (List Nat)

/-- The tensors produced by `PerDQN_Learner.build_training_data`: the
`batch_size`, `weights` and `step_choices` keys are skipped, the remaining
arrays are kept (single worker) or sliced by the worker's indices. -/
structure PerBatch (Obs : Type) where
  obs : List Obs
  actions : List Nat
  obs_next : List Obs
  rewards : List ℚ
  terminals : List ℚ

/-- `v[indices]`: numpy fancy indexing of an array by a list of indices. -/
def tensorIndex {α : Type} (idx : List Nat) (l : List α) : List α :=
  idx.filterMap (fun i => l.get? i)

/-- `PerDQN_Learner.build_training_data` (perdqn_learner.py lines 29-49):
under multi-GPU (`world_size > 1`) every kept array is sliced by the
worker's contiguous index range; otherwise the arrays are kept whole.  The
`batch_size`, `weights` and `step_choices` keys are skipped either way. -/
def build_training_data {Obs : Type} (world_size rank : Nat)
    (s : PerSamples Obs) : PerBatch Obs :=
  if world_size > 1 then
    let idx := shard_indices s.batch_size world_size rank
    { obs := tensorIndex idx s.obs
      actions := tensorIndex idx s.actions
      obs_next := tensorIndex idx s.obs_next
      rewards := tensorIndex idx s.rewards
      terminals := tensorIndex idx s.terminals }
  else
    { obs := s.obs
      actions := s.actions
      obs_next := s.obs_next
      rewards := s.rewards
      terminals := s.terminals }

/-- Mean of a list of rationals, as used by `nn.MSELoss` and `.mean()`. -/
def listMean (l : List ℚ) : ℚ := l.sum / (l.length : ℚ)

/-- `nn.MSELoss()(predictQ, targetQ)`: mean of elementwise squared
differences. -/
def mseLoss (pred target : List ℚ) : ℚ :=
  listMean (List.zipWith (fun a b => (a - b) ^ 2) pred target)

/-- The statistics mapping returned by the learners: loss, learning rate and
mean prediction, rank-suffixed when distributed (perdqn_learner.py
lines 81-92). -/
structure TrainInfo where
  qloss : ℚ
  learning_rate : ℚ
  predictQ_mean : ℚ
  rank_suffix : Option Nat
deriving DecidableEq

/-- `PerDQN_Learner.update` (perdqn_learner.py lines 51-94), embedded as a
pure function of the learner configuration (`γ`, world size, rank,
distributed flag), the current learning rate, the policy and the input
mapping.  Returns the pair
`(np.abs(td_error), info)` of per-sample TD-error magnitudes and the
statistics mapping. -/
def perdqn_update {Obs : Type} (γ : ℚ) (p : QPolicy Obs)
    (world_size rank : Nat) (lr : ℚ) (distributed : Bool)
    (s : PerSamples Obs) : List ℚ × TrainInfo :=
  let t := build_training_data world_size rank s
  let evalQ := t.obs.map p.forwardQ
  let targetQ := tdTargets γ t.rewards t.terminals
    (t.obs_next.map (fun o => tmax (p.targetQ o)))
  let predictQ := List.zipWith (fun q a => maskSum q a) evalQ t.actions
  let td_error := List.zipWith (fun a b => a - b) targetQ predictQ
  let loss := mseLoss predictQ targetQ
  let info : TrainInfo :=
    { qloss := loss
      learning_rate := lr
      predictQ_mean := listMean predictQ
      rank_suffix := if distributed then some rank else none }
  (td_error.map (fun x => |x|), info)

end PerDQN

section LearnerState

/-- The mutable learner state relevant to target synchronization: the
iteration counter and the online and target parameter sets (of an abstract
parameter type `P`). -/
structure LearnerState (P : Type) where
  iterations : Nat
  online : P
  target : P

/-- The state effect of one `update` call shared by all learner variants:
`self.iterations += 1` at entry, an optimizer step (abstracted as an
arbitrary function `gradStep` of the online parameters), and the hard
target update `if self.iterations % self.sync_frequency == 0:
self.policy.copy_target()` (ddqn_learner.py lines 27, 43-53,
perdqn_learner.py lines 52, 68-78, drqn_learner.py lines 27, 47-57). -/
def update_state {P : Type} (sync_frequency : Nat) (gradStep : P → P)
    (s : LearnerState P) : LearnerState P :=
  let it := s.iterations + 1
  let onl := gradStep s.online
  if it % sync_frequency = 0 then
    { iterations := it, online := onl, target := onl }
  else
    { iterations := it, online := onl, target := s.target }

end LearnerState

section DRQN

/-- Abstract recurrent policy collaborator of `DRQN_Learner`: observation
batches are `batch × time` grids, forward passes take an explicit recurrent
hidden state (of abstract type `H`) obtained from `init_hidden(batch_size)`,
and the action-value outputs are per batch element and per time step.
`forwardQ` is the Q-value output of `policy(obs, *rnn_hidden)`, `targetA`
and `targetQ` the arg-max and Q-value outputs of
`policy.target(obs, *rnn_hidden)`; the trailing hidden-state output of each
forward pass is discarded by the learner and therefore omitted. -/
structure RQPolicy (Obs H : Type) where
  init_hidden : Nat → H
  forwardQ : List (List Obs) → H → List (List (List ℚ))
  targetA : List (List Obs) → H → List (List Nat)
  targetQ : List (List Obs) → H → List (List (List ℚ))

/-- `obs_batch[:, 0:-1]`: for every batch element, the time slice that drops
the last step (drqn_learner.py line 35). -/
def drqn_online_obs {Obs : Type} (obs : List (List Obs)) : List (List Obs) :=
  obs.map List.dropLast

/-- `obs_batch[:, 1:]`: for every batch element, the time slice that drops
the first step (drqn_learner.py line 37). -/
def drqn_target_obs {Obs : Type} (obs : List (List Obs)) : List (List Obs) :=
  obs.map (List.drop 1)

/-- One-hot mask-and-sum applied along a row of time steps. -/
def maskSum2 (q : List (List ℚ)) (a : List Nat) : List ℚ :=
  List.zipWith maskSum q a

/-- The TD-target formula broadcast over a `batch × time` grid
(drqn_learner.py line 43). -/
def tdTargets2 (γ : ℚ) :
    List (List ℚ) → List (List ℚ) → List (List ℚ) → List (List ℚ)
  | r :: rs, t :: ts, b :: bs => tdTargets γ r t b :: tdTargets2 γ rs ts bs
  | _, _, _ => []

/-- `evalQ` of `DRQN_Learner.update`: the online network applied to the
current-step slice with a fresh initial hidden state
(drqn_learner.py lines 34-35). -/
def drqn_evalQ {Obs H : Type} (p : RQPolicy Obs H) (obs : List (List Obs))
    (batch_size : Nat) : List (List (List ℚ)) :=
  p.forwardQ (drqn_online_obs obs) (p.init_hidden batch_size)

/-- `targetA` of `DRQN_Learner.update`: the target network's arg-max actions
on the next-step slice with a fresh initial hidden state
(drqn_learner.py lines 36-37). -/
def drqn_targetA {Obs H : Type} (p : RQPolicy Obs H) (obs : List (List Obs))
    (batch_size : Nat) : List (List Nat) :=
  p.targetA (drqn_target_obs obs) (p.init_hidden batch_size)

/-- `targetQ` of `DRQN_Learner.update` before masking: the target network's
action values on the next-step slice with a fresh initial hidden state
(drqn_learner.py lines 36-37). -/
def drqn_targetQraw {Obs H : Type} (p : RQPolicy Obs H)
    (obs : List (List Obs)) (batch_size : Nat) : List (List (List ℚ)) :=
  p.targetQ (drqn_target_obs obs) (p.init_hidden batch_size)

/-- The `batch × time` grid of TD targets computed by `DRQN_Learner.update`
(drqn_learner.py lines 36-43). -/
def drqn_targetQ {Obs H : Type} (γ : ℚ) (p : RQPolicy Obs H)
    (obs : List (List Obs)) (rews ters : List (List ℚ))
    (batch_size : Nat) : List (List ℚ) :=
  tdTargets2 γ rews ters
    (List.zipWith maskSum2 (drqn_targetQraw p obs batch_size)
      (drqn_targetA p obs batch_size))

theorem tdTargets2_getD (γ : ℚ) (rs ts bs : List (List ℚ)) (i : Nat)
    (ht : ts.length = rs.length) (hb : bs.length = rs.length)
    (hi : i < rs.length) :
    (tdTargets2 γ rs ts bs).getD i [] =
      tdTargets γ (rs.getD i []) (ts.getD i []) (bs.getD i []) := by
  induction rs generalizing ts bs i with
  | nil => simp at hi
  | cons r rs ih =>
    cases ts with
    | nil => simp at ht
    | cons t ts =>
      cases bs with
      | nil => simp at hb
      | cons b bs =>
        cases i with
        | zero => simp [tdTargets2]
        | succ i =>
          have ht' : ts.length = rs.length := by simpa using ht
          have hb' : bs.length = rs.length := by simpa using hb
          have hi' : i < rs.length := Nat.lt_of_succ_lt_succ hi
          have hstep : tdTargets2 γ (r :: rs) (t :: ts) (b :: bs) =
              tdTargets γ r t b :: tdTargets2 γ rs ts bs := rfl
          rw [hstep, List.getD_cons_succ, List.getD_cons_succ,
            List.getD_cons_succ, List.getD_cons_succ]
          exact ih ts bs i ht' hb' hi'

end DRQN

section Fixtures

/-- A concrete feed-forward policy over rational observations, used to
evaluate the theorems on concrete inputs. -/
def testPolicy : QPolicy ℚ where
  forwardQ := fun o => [o, o + 1]
  targetA := fun _ => 1
  targetQ := fun o => [o, o + 1]

/-- Same target network as `testPolicy` but a different online network. -/
def testPolicyB : QPolicy ℚ where
  forwardQ := fun o => [2 * o, o - 1]
  targetA := fun _ => 1
  targetQ := fun o => [o, o + 1]

/-- A concrete recurrent policy over rational observations with natural
hidden states. -/
def testRPolicy : RQPolicy ℚ Nat where
  init_hidden := fun b => b
  forwardQ := fun obs _ => obs.map (fun row => row.map (fun o => [o, o + 1]))
  targetA := fun obs _ => obs.map (fun row => row.map (fun _ => 1))
  targetQ := fun obs _ => obs.map (fun row => row.map (fun o => [o, o + 1]))

/-- A concrete input mapping for the prioritized learner, realizing the
spec scenario `rewards=[1,0,0,2]`, `terminals=[0,0,1,0]`, `batch_size=4`. -/
def testSamples : PerSamples ℚ where
  obs := [1, 2, 3, 4]
  actions := [0, 1, 0, 1]
  obs_next := [5, 6, 7, 8]
  rewards := [1, 0, 0, 2]
  terminals := [0, 0, 1, 0]
  batch_size := 4
  weights := none
  step_choices := none

/-- `testSamples` with different `weights` and `step_choices` entries and
everything else unchanged. -/
def testSamplesW : PerSamples ℚ where
  obs := [1, 2, 3, 4]
  actions := [0, 1, 0, 1]
  obs_next := [5, 6, 7, 8]
  rewards := [1, 0, 0, 2]
  terminals := [0, 0, 1, 0]
  batch_size := 4
  weights := some [1, 1, 1, 1]
  step_choices := some [0, 1, 2, 3]

end Fixtures

/-- C1: for every batch element, both the Double-DQN and the prioritized
learner compute the TD target as
`reward + discount * (1 - terminal) * bootstrap`, where the bootstrap is
selected from the target network's output; for every element with terminal
flag 0 the target equals `reward + discount * bootstrap`. -/
theorem c1_td_target_formula {Obs : Type} (γ : ℚ) (p : QPolicy Obs)
    (next : List Obs) (rews ters : List ℚ) (i : Nat)
    (ht : ters.length = rews.length) (hn : next.length = rews.length)
    (hi : i < rews.length) :
    (ddqn_targetQ γ p next rews ters).getD i 0 =
      rews.getD i 0 + γ * (1 - ters.getD i 0) *
        (next.map (ddqn_bootstrap p)).getD i 0
    ∧ (perdqn_targetQ γ p next rews ters).getD i 0 =
      rews.getD i 0 + γ * (1 - ters.getD i 0) *
        (next.map (perdqn_bootstrap p)).getD i 0
    ∧ (ters.getD i 0 = 0 →
      (ddqn_targetQ γ p next rews ters).getD i 0 =
        rews.getD i 0 + γ * (next.map (ddqn_bootstrap p)).getD i 0) := by
  have hbl1 : (next.map (ddqn_bootstrap p)).length = rews.length := by
    simpa using hn
  have hbl2 : (next.map (perdqn_bootstrap p)).length = rews.length := by
    simpa using hn
  have h1 := tdTargets_getD γ rews ters (next.map (ddqn_bootstrap p)) i ht hbl1 hi
  have h2 := tdTargets_getD γ rews ters (next.map (perdqn_bootstrap p)) i ht hbl2 hi
  refine ⟨h1, h2, fun h0 => ?_⟩
  rw [ddqn_targetQ, h1, h0]
  ring

/-- Witness for C1 at the concrete scenario batch. -/
theorem c1_td_target_formula_witness :
    ([(0 : ℚ), 0, 1, 0] : List ℚ).length = ([(1 : ℚ), 0, 0, 2] : List ℚ).length
    ∧ ([(5 : ℚ), 6, 7, 8] : List ℚ).length = ([(1 : ℚ), 0, 0, 2] : List ℚ).length
    ∧ 0 < ([(1 : ℚ), 0, 0, 2] : List ℚ).length
    ∧ ((ddqn_targetQ (9/10) testPolicy [5, 6, 7, 8] [1, 0, 0, 2] [0, 0, 1, 0]).getD 0 0 =
        ([(1 : ℚ), 0, 0, 2] : List ℚ).getD 0 0 + (9/10) * (1 - ([(0 : ℚ), 0, 1, 0] : List ℚ).getD 0 0) *
          (([(5 : ℚ), 6, 7, 8] : List ℚ).map (ddqn_bootstrap testPolicy)).getD 0 0
      ∧ (perdqn_targetQ (9/10) testPolicy [5, 6, 7, 8] [1, 0, 0, 2] [0, 0, 1, 0]).getD 0 0 =
        ([(1 : ℚ), 0, 0, 2] : List ℚ).getD 0 0 + (9/10) * (1 - ([(0 : ℚ), 0, 1, 0] : List ℚ).getD 0 0) *
          (([(5 : ℚ), 6, 7, 8] : List ℚ).map (perdqn_bootstrap testPolicy)).getD 0 0
      ∧ (([(0 : ℚ), 0, 1, 0] : List ℚ).getD 0 0 = 0 →
        (ddqn_targetQ (9/10) testPolicy [5, 6, 7, 8] [1, 0, 0, 2] [0, 0, 1, 0]).getD 0 0 =
          ([(1 : ℚ), 0, 0, 2] : List ℚ).getD 0 0 + (9/10) *
            (([(5 : ℚ), 6, 7, 8] : List ℚ).map (ddqn_bootstrap testPolicy)).getD 0 0)) :=
  ⟨rfl, rfl, by decide,
    c1_td_target_formula (9/10) testPolicy [5, 6, 7, 8] [1, 0, 0, 2] [0, 0, 1, 0] 0
      rfl rfl (by decide)⟩

/-- C2: for every batch element with terminal flag 1, the TD target of the
Double-DQN learner and of the recurrent learner equals the reward exactly,
for every policy (hence independent of the target network's output). -/
theorem c2_terminal_target_is_reward {Obs H : Type} (γ : ℚ) (p : QPolicy Obs)
    (next : List Obs) (rews ters : List ℚ) (i : Nat)
    (ht : ters.length = rews.length) (hn : next.length = rews.length)
    (hi : i < rews.length) (hter : ters.getD i 0 = 1)
    (pr : RQPolicy Obs H) (obs2 : List (List Obs))
    (rews2 ters2 : List (List ℚ)) (bs i2 t : Nat)
    (hL1 : ters2.length = rews2.length)
    (hL2 : (List.zipWith maskSum2 (drqn_targetQraw pr obs2 bs)
      (drqn_targetA pr obs2 bs)).length = rews2.length)
    (hi2 : i2 < rews2.length)
    (hR1 : (ters2.getD i2 []).length = (rews2.getD i2 []).length)
    (hR2 : ((List.zipWith maskSum2 (drqn_targetQraw pr obs2 bs)
      (drqn_targetA pr obs2 bs)).getD i2 []).length =
        (rews2.getD i2 []).length)
    (htlen : t < (rews2.getD i2 []).length)
    (hter2 : (ters2.getD i2 []).getD t 0 = 1) :
    (ddqn_targetQ γ p next rews ters).getD i 0 = rews.getD i 0
    ∧ ((drqn_targetQ γ pr obs2 rews2 ters2 bs).getD i2 []).getD t 0 =
      (rews2.getD i2 []).getD t 0 := by
  constructor
  · have hbl : (next.map (ddqn_bootstrap p)).length = rews.length := by
      simpa using hn
    have h1 := tdTargets_getD γ rews ters (next.map (ddqn_bootstrap p)) i ht hbl hi
    rw [ddqn_targetQ, h1, hter]
    ring
  · rw [drqn_targetQ, tdTargets2_getD γ rews2 ters2 _ i2 hL1 hL2 hi2,
      tdTargets_getD γ _ _ _ t hR1 hR2 htlen, hter2]
    ring

/-- Witness for C2: the spec scenario element at index 2
(`rewards=[1,0,0,2]`, `terminals=[0,0,1,0]`, `γ=9/10`) has target equal to
its reward 0, and a concrete recurrent batch behaves likewise. -/
theorem c2_terminal_target_is_reward_witness :
    ([(0 : ℚ), 0, 1, 0] : List ℚ).getD 2 0 = 1
    ∧ (([[(1 : ℚ), 1]] : List (List ℚ)).getD 0 []).getD 0 0 = 1
    ∧ ((ddqn_targetQ (9/10) testPolicy [5, 6, 7, 8] [1, 0, 0, 2] [0, 0, 1, 0]).getD 2 0 =
        ([(1 : ℚ), 0, 0, 2] : List ℚ).getD 2 0
      ∧ ((drqn_targetQ (9/10) testRPolicy [[1, 2, 3]] [[0, 1]] [[1, 1]] 1).getD 0 []).getD 0 0 =
        (([[(0 : ℚ), 1]] : List (List ℚ)).getD 0 []).getD 0 0) :=
  ⟨by decide, by decide,
    c2_terminal_target_is_reward (9/10) testPolicy [5, 6, 7, 8] [1, 0, 0, 2]
      [0, 0, 1, 0] 2 rfl rfl (by decide) (by decide)
      testRPolicy [[1, 2, 3]] [[0, 1]] [[1, 1]] 1 0 0
      (by decide) (by decide) (by decide) (by decide) (by decide)
      (by decide) (by decide)⟩

/-- C3: every `update` call increments the iteration counter by exactly
one; the target parameters are unchanged by the call unless the incremented
counter is an exact multiple of the sync frequency, in which case they
exactly equal the online parameters immediately after the call. -/
theorem c3_target_sync {P : Type} (sync_frequency : Nat) (gradStep : P → P)
    (s : LearnerState P) :
    (update_state sync_frequency gradStep s).iterations = s.iterations + 1
    ∧ ((s.iterations + 1) % sync_frequency = 0 →
      (update_state sync_frequency gradStep s).target =
        (update_state sync_frequency gradStep s).online)
    ∧ ((s.iterations + 1) % sync_frequency ≠ 0 →
      (update_state sync_frequency gradStep s).target = s.target) := by
  unfold update_state
  by_cases h : (s.iterations + 1) % sync_frequency = 0
  · simp [h]
  · simp [h]

/-- Witness for C3 at a concrete state: with sync frequency 2 and counter 1,
the call that brings the counter to 2 syncs target to online, and the next
call leaves the target untouched. -/
theorem c3_target_sync_witness :
    (update_state 2 (fun x => x + 1) ⟨1, 5, 7⟩ : LearnerState Nat).iterations = 1 + 1
    ∧ (update_state 2 (fun x => x + 1) ⟨1, 5, 7⟩ : LearnerState Nat).target =
      (update_state 2 (fun x => x + 1) ⟨1, 5, 7⟩ : LearnerState Nat).online
    ∧ (update_state 2 (fun x => x + 1) ⟨2, 5, 7⟩ : LearnerState Nat).target = 7 :=
  ⟨(c3_target_sync 2 (fun x => x + 1) ⟨1, 5, 7⟩).1,
    (c3_target_sync 2 (fun x => x + 1) ⟨1, 5, 7⟩).2.1 (by decide),
    (c3_target_sync 2 (fun x => x + 1) ⟨2, 5, 7⟩).2.2 (by decide)⟩

/-- C4: for every batch size and worker count `w ≥ 1`, the per-rank index
ranges selected by `build_training_data` are a partition of
`[0, batch_size)`: every batch index lies in exactly one rank's range and
every selected index is a batch index. -/
theorem c4_shard_partition (bs w : Nat) (hw : 1 ≤ w) :
    (∀ i, i < bs ↔ ∃ r, r < w ∧ i ∈ shard_indices bs w r)
    ∧ (∀ r1 r2 i, r1 < w → r2 < w → r1 ≠ r2 →
      ¬(i ∈ shard_indices bs w r1 ∧ i ∈ shard_indices bs w r2)) := by
  constructor
  · intro i
    constructor
    · exact shard_cover bs w i hw
    · rintro ⟨r, hr, hmem⟩
      exact shard_mem_lt bs w r i hw hr hmem
  · intro r1 r2 i h1 h2 hne
    exact shard_disjoint bs w r1 r2 i hw h1 h2 hne

/-- Witness for C4 with batch size 5 and two workers (ranges `[0,2)` and
`[2,5)`, the last worker absorbing the remainder). -/
theorem c4_shard_partition_witness :
    (1 : Nat) ≤ 2
    ∧ ((∀ i, i < 5 ↔ ∃ r, r < 2 ∧ i ∈ shard_indices 5 2 r)
      ∧ (∀ r1 r2 i, r1 < 2 → r2 < 2 → r1 ≠ r2 →
        ¬(i ∈ shard_indices 5 2 r1 ∧ i ∈ shard_indices 5 2 r2))) :=
  ⟨by decide, c4_shard_partition 5 2 (by decide)⟩

theorem tensorIndex_length {α : Type} (idx : List Nat) (l : List α)
    (h : ∀ i ∈ idx, i < l.length) : (tensorIndex idx l).length = idx.length := by
  induction idx with
  | nil => rfl
  | cons i idx ih =>
    have hi : i < l.length := h i (List.mem_cons_self i idx)
    have hsome : l.get? i = some (l.get ⟨i, hi⟩) := List.get?_eq_get hi
    have ih' : (List.filterMap (fun j => l.get? j) idx).length = idx.length :=
      ih (fun j hj => h j (List.mem_cons_of_mem i hj))
    show (List.filterMap (fun j => l.get? j) (i :: idx)).length = idx.length + 1
    rw [List.filterMap_cons]
    simp only [hsome]
    rw [List.length_cons, ih']

theorem build_training_data_single {Obs : Type} (world_size rank : Nat)
    (s : PerSamples Obs) (hW : world_size ≤ 1) :
    build_training_data world_size rank s =
      { obs := s.obs, actions := s.actions, obs_next := s.obs_next,
        rewards := s.rewards, terminals := s.terminals } := by
  unfold build_training_data
  rw [if_neg]
  omega

theorem build_training_data_multi {Obs : Type} (world_size rank : Nat)
    (s : PerSamples Obs) (hW : 1 < world_size) :
    build_training_data world_size rank s =
      { obs := tensorIndex (shard_indices s.batch_size world_size rank) s.obs
        actions := tensorIndex (shard_indices s.batch_size world_size rank) s.actions
        obs_next := tensorIndex (shard_indices s.batch_size world_size rank) s.obs_next
        rewards := tensorIndex (shard_indices s.batch_size world_size rank) s.rewards
        terminals := tensorIndex (shard_indices s.batch_size world_size rank) s.terminals } := by
  unfold build_training_data
  rw [if_pos hW]

theorem perdqn_update_fst {Obs : Type} (γ : ℚ) (p : QPolicy Obs)
    (world_size rank : Nat) (lr : ℚ) (d : Bool) (s : PerSamples Obs) :
    (perdqn_update γ p world_size rank lr d s).1 =
      (List.zipWith (fun a b => a - b)
        (tdTargets γ (build_training_data world_size rank s).rewards
          (build_training_data world_size rank s).terminals
          ((build_training_data world_size rank s).obs_next.map
            (fun o => tmax (p.targetQ o))))
        (List.zipWith (fun q a => maskSum q a)
          ((build_training_data world_size rank s).obs.map p.forwardQ)
          (build_training_data world_size rank s).actions)).map
        (fun x => |x|) := rfl

theorem perdqn_update_length {Obs : Type} (γ : ℚ) (p : QPolicy Obs)
    (world_size rank : Nat) (lr : ℚ) (d : Bool) (s : PerSamples Obs) (n : Nat)
    (h1 : (build_training_data world_size rank s).obs.length = n)
    (h2 : (build_training_data world_size rank s).actions.length = n)
    (h3 : (build_training_data world_size rank s).obs_next.length = n)
    (h4 : (build_training_data world_size rank s).rewards.length = n)
    (h5 : (build_training_data world_size rank s).terminals.length = n) :
    (perdqn_update γ p world_size rank lr d s).1.length = n := by
  have hT : (tdTargets γ (build_training_data world_size rank s).rewards
      (build_training_data world_size rank s).terminals
      ((build_training_data world_size rank s).obs_next.map
        (fun o => tmax (p.targetQ o)))).length = n := by
    rw [tdTargets_length]
    · exact h4
    · rw [h5, h4]
    · rw [List.length_map, h3, h4]
  have hP : (List.zipWith (fun q a => maskSum q a)
      ((build_training_data world_size rank s).obs.map p.forwardQ)
      (build_training_data world_size rank s).actions).length = n := by
    rw [List.length_zipWith, List.length_map, h1, h2]
    exact Nat.min_self n
  rw [perdqn_update_fst, List.length_map, List.length_zipWith, hT, hP]
  exact Nat.min_self n

/-- C5 (amended): the prioritized learner's `update` returns the per-sample
TD-error magnitudes first (statistics second); every entry is non-negative,
and the array length equals the number of samples the worker processes:
the full batch size for a single worker, the worker's shard size under
multi-worker sharding. -/
theorem c5_td_error_magnitudes {Obs : Type} (γ : ℚ) (p : QPolicy Obs)
    (world_size rank : Nat) (lr : ℚ) (d : Bool) (s : PerSamples Obs)
    (hobs : s.obs.length = s.batch_size)
    (hact : s.actions.length = s.batch_size)
    (hnext : s.obs_next.length = s.batch_size)
    (hrew : s.rewards.length = s.batch_size)
    (hter : s.terminals.length = s.batch_size)
    (hr : rank < world_size) :
    (world_size ≤ 1 →
      (perdqn_update γ p world_size rank lr d s).1.length = s.batch_size)
    ∧ (1 < world_size →
      (perdqn_update γ p world_size rank lr d s).1.length =
        (shard_indices s.batch_size world_size rank).length)
    ∧ (∀ x ∈ (perdqn_update γ p world_size rank lr d s).1, 0 ≤ x) := by
  refine ⟨fun hW => ?_, fun hW => ?_, ?_⟩
  · have hb := build_training_data_single world_size rank s hW
    exact perdqn_update_length γ p world_size rank lr d s s.batch_size
      (by rw [hb]; exact hobs) (by rw [hb]; exact hact)
      (by rw [hb]; exact hnext) (by rw [hb]; exact hrew)
      (by rw [hb]; exact hter)
  · have hb := build_training_data_multi world_size rank s hW
    have hwr : 1 ≤ world_size := Nat.le_of_lt hW
    have hidx : ∀ i ∈ shard_indices s.batch_size world_size rank,
        i < s.batch_size :=
      fun i hi => shard_mem_lt s.batch_size world_size rank i hwr hr hi
    exact perdqn_update_length γ p world_size rank lr d s _
      (by rw [hb]; exact tensorIndex_length _ _ (by rw [hobs]; exact hidx))
      (by rw [hb]; exact tensorIndex_length _ _ (by rw [hact]; exact hidx))
      (by rw [hb]; exact tensorIndex_length _ _ (by rw [hnext]; exact hidx))
      (by rw [hb]; exact tensorIndex_length _ _ (by rw [hrew]; exact hidx))
      (by rw [hb]; exact tensorIndex_length _ _ (by rw [hter]; exact hidx))
  · intro x hx
    rw [perdqn_update_fst] at hx
    rcases List.mem_map.mp hx with ⟨y, _, rfl⟩
    exact abs_nonneg y

/-- Counterexample to C5 as stated: under two workers (rank 0, batch size
4) the returned TD-error array has length 2, not the batch size 4. -/
theorem c5_td_error_magnitudes_counterexample :
    ¬((perdqn_update (9/10) testPolicy 2 0 (1/1000) false testSamples).1.length =
      testSamples.batch_size) := by
  decide

/-- Witness for C5 (amended) at the concrete single-worker scenario batch. -/
theorem c5_td_error_magnitudes_witness :
    testSamples.obs.length = testSamples.batch_size
    ∧ (0 : Nat) < 1
    ∧ ((1 ≤ 1 →
        (perdqn_update (9/10) testPolicy 1 0 (1/1000) false testSamples).1.length =
          testSamples.batch_size)
      ∧ (1 < 1 →
        (perdqn_update (9/10) testPolicy 1 0 (1/1000) false testSamples).1.length =
          (shard_indices testSamples.batch_size 1 0).length)
      ∧ (∀ x ∈ (perdqn_update (9/10) testPolicy 1 0 (1/1000) false testSamples).1,
          0 ≤ x)) :=
  ⟨rfl, by decide,
    c5_td_error_magnitudes (9/10) testPolicy 1 0 (1/1000) false testSamples
      rfl rfl rfl rfl rfl (by decide)⟩

/-- C6: the Double-DQN bootstrap is the target network's action value at
the target network's own arg-max action (one-hot masking and summing select
exactly that entry), and it depends only on the target network's outputs,
not on the online network: two policies agreeing on `targetA` and `targetQ`
produce the same bootstrap and the same TD targets, whatever their online
networks do. -/
theorem c6_ddqn_bootstrap_from_target {Obs : Type} (p : QPolicy Obs) (o : Obs)
    (h : p.targetA o < (p.targetQ o).length) :
    ddqn_bootstrap p o = (p.targetQ o).getD (p.targetA o) 0
    ∧ (∀ p' : QPolicy Obs, p'.targetA o = p.targetA o →
        p'.targetQ o = p.targetQ o → ddqn_bootstrap p' o = ddqn_bootstrap p o)
    ∧ (∀ (p' : QPolicy Obs) (γ : ℚ) (next : List Obs) (rews ters : List ℚ),
        (∀ o' ∈ next, p'.targetA o' = p.targetA o' ∧ p'.targetQ o' = p.targetQ o') →
        ddqn_targetQ γ p' next rews ters = ddqn_targetQ γ p next rews ters) := by
  refine ⟨maskSum_getD _ _ h, fun p' ha hq => ?_, fun p' γ next rews ters hag => ?_⟩
  · rw [ddqn_bootstrap, ddqn_bootstrap, ha, hq]
  · rw [ddqn_targetQ, ddqn_targetQ]
    have hmap : next.map (ddqn_bootstrap p') = next.map (ddqn_bootstrap p) := by
      apply List.map_congr_left
      intro o' ho'
      rw [ddqn_bootstrap, ddqn_bootstrap, (hag o' ho').1, (hag o' ho').2]
    rw [hmap]

/-- Witness for C6 at a concrete observation and policies sharing the
target network but not the online network. -/
theorem c6_ddqn_bootstrap_from_target_witness :
    testPolicy.targetA 3 < (testPolicy.targetQ 3).length
    ∧ (ddqn_bootstrap testPolicy 3 = (testPolicy.targetQ 3).getD (testPolicy.targetA 3) 0
      ∧ (∀ p' : QPolicy ℚ, p'.targetA 3 = testPolicy.targetA 3 →
          p'.targetQ 3 = testPolicy.targetQ 3 →
          ddqn_bootstrap p' 3 = ddqn_bootstrap testPolicy 3)
      ∧ (∀ (p' : QPolicy ℚ) (γ : ℚ) (next : List ℚ) (rews ters : List ℚ),
          (∀ o' ∈ next, p'.targetA o' = testPolicy.targetA o' ∧
            p'.targetQ o' = testPolicy.targetQ o') →
          ddqn_targetQ γ p' next rews ters = ddqn_targetQ γ testPolicy next rews ters)) :=
  ⟨by decide, c6_ddqn_bootstrap_from_target testPolicy 3 (by decide)⟩

/-- C7: the prioritized learner's bootstrap is the plain per-element maximum
of the target network's action values — it is an element of that vector, an
upper bound of it, and depends only on `targetQ`, with no arg-max one-hot
indirection (two policies agreeing on `targetQ` alone produce the same
bootstrap). -/
theorem c7_perdqn_bootstrap_is_max {Obs : Type} (p : QPolicy Obs) (o : Obs)
    (h : p.targetQ o ≠ []) :
    perdqn_bootstrap p o ∈ p.targetQ o
    ∧ (∀ x ∈ p.targetQ o, x ≤ perdqn_bootstrap p o)
    ∧ (∀ p' : QPolicy Obs, p'.targetQ o = p.targetQ o →
        perdqn_bootstrap p' o = perdqn_bootstrap p o) := by
  refine ⟨tmax_mem _ h, fun x hx => le_tmax_of_mem _ x hx, fun p' hq => ?_⟩
  rw [perdqn_bootstrap, perdqn_bootstrap, hq]

/-- Witness for C7 at a concrete observation. -/
theorem c7_perdqn_bootstrap_is_max_witness :
    testPolicy.targetQ 3 ≠ []
    ∧ (perdqn_bootstrap testPolicy 3 ∈ testPolicy.targetQ 3
      ∧ (∀ x ∈ testPolicy.targetQ 3, x ≤ perdqn_bootstrap testPolicy 3)
      ∧ (∀ p' : QPolicy ℚ, p'.targetQ 3 = testPolicy.targetQ 3 →
          perdqn_bootstrap p' 3 = perdqn_bootstrap testPolicy 3)) :=
  ⟨by decide, c7_perdqn_bootstrap_is_max testPolicy 3 (by decide)⟩

/-- C9: the `weights` and `step_choices` entries of the input mapping are
never read by the prioritized learner's shown logic: two input mappings
that differ only in those entries produce the same TD-error array and the
same statistics. -/
theorem c9_weights_step_choices_ignored {Obs : Type} (γ : ℚ) (p : QPolicy Obs)
    (world_size rank : Nat) (lr : ℚ) (d : Bool) (s1 s2 : PerSamples Obs)
    (hobs : s1.obs = s2.obs) (hact : s1.actions = s2.actions)
    (hnext : s1.obs_next = s2.obs_next) (hrew : s1.rewards = s2.rewards)
    (hter : s1.terminals = s2.terminals)
    (hbs : s1.batch_size = s2.batch_size) :
    perdqn_update γ p world_size rank lr d s1 =
      perdqn_update γ p world_size rank lr d s2 := by
  have hb : build_training_data world_size rank s1 =
      build_training_data world_size rank s2 := by
    unfold build_training_data
    rw [hobs, hact, hnext, hrew, hter, hbs]
  simp only [perdqn_update, hb]

/-- Witness for C9: inputs differing only in `weights` and `step_choices`
give identical results. -/
theorem c9_weights_step_choices_ignored_witness :
    testSamples.weights ≠ testSamplesW.weights
    ∧ testSamples.step_choices ≠ testSamplesW.step_choices
    ∧ perdqn_update (9/10) testPolicy 1 0 (1/1000) false testSamples =
      perdqn_update (9/10) testPolicy 1 0 (1/1000) false testSamplesW :=
  ⟨by decide, by decide,
    c9_weights_step_choices_ignored (9/10) testPolicy 1 0 (1/1000) false
      testSamples testSamplesW rfl rfl rfl rfl rfl rfl⟩

theorem getD_mem {α : Type} (l : List α) (n : Nat) (d : α) (h : n < l.length) :
    l.getD n d ∈ l := by
  induction l generalizing n with
  | nil => simp at h
  | cons x xs ih =>
    cases n with
    | zero => simp
    | succ n =>
      rw [List.getD_cons_succ]
      exact List.mem_cons_of_mem x (ih n (Nat.lt_of_succ_lt_succ h))

/-- C10: under the collaborator contract that the target network's arg-max
action indexes a maximal entry of its action-value vector, the Double-DQN
bootstrap (one-hot of the target arg-max, multiplied with the target
action values and summed) equals the prioritized learner's bootstrap (the
plain maximum of the target action values). -/
theorem c10_double_bootstrap_eq_max {Obs : Type} (p : QPolicy Obs) (o : Obs)
    (h : p.targetA o < (p.targetQ o).length)
    (hmax : ∀ x ∈ p.targetQ o, x ≤ (p.targetQ o).getD (p.targetA o) 0) :
    ddqn_bootstrap p o = perdqn_bootstrap p o := by
  have h1 : ddqn_bootstrap p o = (p.targetQ o).getD (p.targetA o) 0 :=
    maskSum_getD _ _ h
  have hne : p.targetQ o ≠ [] := by
    intro hq
    rw [hq] at h
    simp at h
  rw [h1, perdqn_bootstrap]
  apply le_antisymm
  · exact le_tmax_of_mem _ _ (getD_mem _ _ _ h)
  · exact hmax _ (tmax_mem _ hne)

/-- Witness for C10 at a concrete observation whose target arg-max indexes
the maximal action value. -/
theorem c10_double_bootstrap_eq_max_witness :
    testPolicy.targetA 2 < (testPolicy.targetQ 2).length
    ∧ (∀ x ∈ testPolicy.targetQ 2,
        x ≤ (testPolicy.targetQ 2).getD (testPolicy.targetA 2) 0)
    ∧ ddqn_bootstrap testPolicy 2 = perdqn_bootstrap testPolicy 2 :=
  ⟨by decide,
    by
      intro x hx
      simp [testPolicy] at hx ⊢
      rcases hx with h | h <;> rw [h] <;> norm_num,
    c10_double_bootstrap_eq_max testPolicy 2 (by decide)
      (by
        intro x hx
        simp [testPolicy] at hx ⊢
        rcases hx with h | h <;> rw [h] <;> norm_num)⟩

theorem getD_map {α β : Type} (f : α → β) (l : List α) (i : Nat) (d : α)
    (d' : β) (hi : i < l.length) : (l.map f).getD i d' = f (l.getD i d) := by
  induction l generalizing i with
  | nil => simp at hi
  | cons x xs ih =>
    cases i with
    | zero => rfl
    | succ i =>
      rw [List.map_cons, List.getD_cons_succ, List.getD_cons_succ]
      exact ih i (Nat.lt_of_succ_lt_succ hi)

theorem dropLast_getD {α : Type} (l : List α) (t : Nat) (d : α)
    (h : t + 1 < l.length) : l.dropLast.getD t d = l.getD t d := by
  induction l generalizing t with
  | nil => simp at h
  | cons x xs ih =>
    cases xs with
    | nil => simp at h
    | cons y ys =>
      cases t with
      | zero => rfl
      | succ t =>
        have hstep : (x :: y :: ys).dropLast = x :: (y :: ys).dropLast := rfl
        rw [hstep, List.getD_cons_succ, List.getD_cons_succ]
        exact ih t (by simpa using h)

theorem drop_one_getD {α : Type} (l : List α) (t : Nat) (d : α) :
    (l.drop 1).getD t d = l.getD (t + 1) d := by
  cases l with
  | nil => rfl
  | cons x xs => rfl

/-- C8: the recurrent learner evaluates the online network on the time
slice `0..T-1` of the contiguous observation sequence and the target
network on the slice `1..T` (element `t` of the online slice is element `t`
of the sequence, element `t` of the target slice is element `t+1`), and
both forward passes receive the fresh recurrent state
`init_hidden(batch_size)` — no hidden state is carried over between
calls. -/
theorem c8_drqn_slices_fresh_hidden {Obs H : Type} (p : RQPolicy Obs H)
    (obs : List (List Obs)) (batch_size i t T : Nat) (d : Obs)
    (hi : i < obs.length) (hrow : (obs.getD i []).length = T + 1)
    (ht : t < T) :
    ((drqn_online_obs obs).getD i []).length = T
    ∧ ((drqn_target_obs obs).getD i []).length = T
    ∧ ((drqn_online_obs obs).getD i []).getD t d = (obs.getD i []).getD t d
    ∧ ((drqn_target_obs obs).getD i []).getD t d =
      (obs.getD i []).getD (t + 1) d
    ∧ drqn_evalQ p obs batch_size =
      p.forwardQ (drqn_online_obs obs) (p.init_hidden batch_size)
    ∧ drqn_targetA p obs batch_size =
      p.targetA (drqn_target_obs obs) (p.init_hidden batch_size)
    ∧ drqn_targetQraw p obs batch_size =
      p.targetQ (drqn_target_obs obs) (p.init_hidden batch_size) := by
  have honl : (drqn_online_obs obs).getD i [] = (obs.getD i []).dropLast := by
    rw [drqn_online_obs]
    have := getD_map List.dropLast obs i [] [] hi
    simpa using this
  have htgt : (drqn_target_obs obs).getD i [] = (obs.getD i []).drop 1 := by
    rw [drqn_target_obs]
    have := getD_map (List.drop 1) obs i [] [] hi
    simpa using this
  refine ⟨?_, ?_, ?_, ?_, rfl, rfl, rfl⟩
  · rw [honl, List.length_dropLast, hrow]
    omega
  · rw [htgt, List.length_drop, hrow]
    omega
  · rw [honl]
    exact dropLast_getD _ t d (by omega)
  · rw [htgt]
    exact drop_one_getD _ t d

/-- Witness for C8 on a concrete two-element batch of three-step
sequences. -/
theorem c8_drqn_slices_fresh_hidden_witness :
    (0 : Nat) < ([[(1 : ℚ), 2, 3], [4, 5, 6]] : List (List ℚ)).length
    ∧ (([[(1 : ℚ), 2, 3], [4, 5, 6]] : List (List ℚ)).getD 0 []).length = 2 + 1
    ∧ (0 : Nat) < 2
    ∧ (((drqn_online_obs [[(1 : ℚ), 2, 3], [4, 5, 6]]).getD 0 []).length = 2
      ∧ ((drqn_target_obs [[(1 : ℚ), 2, 3], [4, 5, 6]]).getD 0 []).length = 2
      ∧ ((drqn_online_obs [[(1 : ℚ), 2, 3], [4, 5, 6]]).getD 0 []).getD 0 0 =
        (([[(1 : ℚ), 2, 3], [4, 5, 6]] : List (List ℚ)).getD 0 []).getD 0 0
      ∧ ((drqn_target_obs [[(1 : ℚ), 2, 3], [4, 5, 6]]).getD 0 []).getD 0 0 =
        (([[(1 : ℚ), 2, 3], [4, 5, 6]] : List (List ℚ)).getD 0 []).getD (0 + 1) 0
      ∧ drqn_evalQ testRPolicy [[(1 : ℚ), 2, 3], [4, 5, 6]] 2 =
        testRPolicy.forwardQ (drqn_online_obs [[(1 : ℚ), 2, 3], [4, 5, 6]])
          (testRPolicy.init_hidden 2)
      ∧ drqn_targetA testRPolicy [[(1 : ℚ), 2, 3], [4, 5, 6]] 2 =
        testRPolicy.targetA (drqn_target_obs [[(1 : ℚ), 2, 3], [4, 5, 6]])
          (testRPolicy.init_hidden 2)
      ∧ drqn_targetQraw testRPolicy [[(1 : ℚ), 2, 3], [4, 5, 6]] 2 =
        testRPolicy.targetQ (drqn_target_obs [[(1 : ℚ), 2, 3], [4, 5, 6]])
          (testRPolicy.init_hidden 2)) :=
  ⟨by decide, by decide, by decide,
    c8_drqn_slices_fresh_hidden testRPolicy [[(1 : ℚ), 2, 3], [4, 5, 6]]
      2 0 0 2 0 (by decide) (by decide) (by decide)⟩

end Xuance
